import Mathlib

/-!
Shallow embedding of the pdf-extractor heading pipeline.

The repository has two independent implementations of the same heuristic:
`src/run.py` (function-level pipeline around `is_likely_heading` /
`extract_outline`) and `src/main.py` (class `PDFOutlineExtractor`).
Both are embedded below, over a model where

* text is `Str := List Char` (PDF span text; ASCII casing semantics,
  matching Python's `str` predicates on the inputs that occur here);
* font sizes, vertical positions and page heights are `ℚ` (exact stand-in
  for Python floats: the heuristics only compare and scale them);
* a collected text span is a record of the fields the code reads.

Every definition is translated from the source file named in its doc
comment.  Regular expressions are translated into explicit character-list
matchers; each matcher's doc comment quotes the regex it implements.
-/

/-- Text as a list of characters (Python `str`). -/
abbrev Str := List Char

/-- Python whitespace class (`str.strip`, regex `\s`) restricted to ASCII:
space, tab, newline, carriage return, vertical tab, form feed. -/
def isWS (c : Char) : Bool :=
  c = ' ' || c = '\t' || c = '\n' || c = '\r' || c.val = 11 || c.val = 12

/-- Python `str.strip()`: drop leading whitespace, then trailing whitespace. -/
def pyStrip (s : Str) : Str :=
  ((s.dropWhile isWS).reverse.dropWhile isWS).reverse

/-- Python `str.lower()` (ASCII letters). -/
def pyLower (s : Str) : Str := s.map Char.toLower

/-- Python `str.isupper()`: at least one cased character and no lowercase
character (cased = alphabetic in the ASCII model). -/
def pyIsUpper (s : Str) : Bool :=
  s.any (·.isAlpha) && s.all (fun c => !c.isLower)

/-- `t` starts with the literal `w` (Python `str.startswith`, regex `^w`). -/
def startsWithStr (w t : Str) : Bool := decide (t.take w.length = w)

/-- `t` ends with the literal `w` (Python `str.endswith`). -/
def endsWithStr (w t : Str) : Bool := decide (t.reverse.take w.length = w.reverse)

/-- `w` occurs somewhere in `t` (Python `in`, pandas `str.contains`). -/
def containsStr (w t : Str) : Bool :=
  (List.range (t.length + 1)).any (fun i => startsWithStr w (t.drop i))

/-- `len(s.split())`: number of maximal non-whitespace runs. -/
def wordCount (s : Str) : ℕ :=
  (s.foldl
    (fun (acc : ℕ × Bool) c =>
      if isWS c then (acc.1, false)
      else if acc.2 then acc else (acc.1 + 1, true))
    (0, false)).1

/-- `re.sub(r'\s+', ' ', s)`: collapse every whitespace run to one space.
Structural recursion on a fuel argument (each step consumes at least one
character, so `s.length` fuel always suffices); this keeps the definition
reducible by the kernel. -/
def collapseWSF : ℕ → Str → Str
  | _, [] => []
  | 0, _ => []
  | fuel + 1, c :: rest =>
    if isWS c then ' ' :: collapseWSF fuel (rest.dropWhile isWS)
    else c :: collapseWSF fuel rest

def collapseWS (s : Str) : Str := collapseWSF s.length s

/-- Tail of the full-string Title-Case regex `^[A-Z][a-z]+(\s+[A-Z][a-z]*)*$`
(run.py line 54): after a word, the text must end, or continue with
whitespace, a capital, and optional lowercase letters.  Fueled as above. -/
def tcRestF : ℕ → Str → Bool
  | _, [] => true
  | 0, _ => false
  | fuel + 1, c :: rest =>
    isWS c &&
      (match rest.dropWhile isWS with
       | [] => false
       | d :: r2 => d.isUpper && tcRestF fuel (r2.dropWhile (·.isLower)))

def tcRest (s : Str) : Bool := tcRestF s.length s

/-- run.py line 54, `re.match(r'^[A-Z][a-z]+(\s+[A-Z][a-z]*)*$', text)`:
Title-Case word pattern over the whole text. -/
def titleCasePat (s : Str) : Bool :=
  match s with
  | c :: d :: r => c.isUpper && d.isLower && tcRest (r.dropWhile (·.isLower))
  | _ => false

/-- Maximal leading digit run (used by the `\d+\.` matchers). -/
def leadDigits (t : Str) : Str := t.takeWhile (·.isDigit)

/-- run.py line 21, `re.match(r'^\d+\.', text)`: one or more digits then a
dot at the start of the text. -/
def startsNumDot (t : Str) : Bool :=
  let d := leadDigits t
  !d.isEmpty &&
    (match t.drop d.length with
     | '.' :: _ => true
     | _ => false)

/-- run.py line 17: `text.endswith((',', ';', 'and', 'or', 'the', 'a', 'an',
'to', 'of', 'in', 'for', 'with'))`. -/
def endsContinuation (t : Str) : Bool :=
  [",".data, ";".data, "and".data, "or".data, "the".data, "a".data,
   "an".data, "to".data, "of".data, "in".data, "for".data, "with".data
  ].any (fun w => endsWithStr w t)

/-- run.py line 21: first character lowercase and the text does not start a
numbered-list pattern `^\d+\.`. -/
def startsLowerCont (t : Str) : Bool :=
  match t with
  | c :: _ => c.isLower && !startsNumDot t
  | [] => false

/-- run.py line 25, `re.match(r'^[•·▪▫◦‣⁃]\s', text)`: bullet glyph followed
by a whitespace character. -/
def bulletStart (t : Str) : Bool :=
  match t with
  | b :: c :: _ =>
    (b = '•' || b = '·' || b = '▪' || b = '▫' || b = '◦' || b = '‣' || b = '⁃')
      && isWS c
  | _ => false

/-- Case-insensitive word alternative of run.py line 42: `w` (given in
lowercase) followed by one whitespace character. -/
def startsWordWS (w t : Str) : Bool :=
  startsWithStr w (pyLower t) &&
    (match t.drop w.length with
     | c :: _ => isWS c
     | [] => false)

/-- `\d+\.` alternative of run.py line 42: digits, dot, whitespace. -/
def digitsDotWS (t : Str) : Bool :=
  let d := leadDigits t
  !d.isEmpty &&
    (match t.drop d.length with
     | '.' :: c :: _ => isWS c
     | _ => false)

/-- A character of the class `[IVX]` under `re.I`. -/
def isRomanChar (c : Char) : Bool :=
  c = 'I' || c = 'V' || c = 'X' || c = 'i' || c = 'v' || c = 'x'

/-- `[IVX]+\.` alternative of run.py line 42 (case-insensitive): Roman-numeral
letters, dot, whitespace. -/
def romanDotWS (t : Str) : Bool :=
  let d := t.takeWhile isRomanChar
  !d.isEmpty &&
    (match t.drop d.length with
     | '.' :: c :: _ => isWS c
     | _ => false)

/-- run.py line 42,
`re.match(r'^(Chapter|Section|Part|Article|\d+\.|[IVX]+\.)\s', text, re.I)`. -/
def headingPattern (t : Str) : Bool :=
  startsWordWS "chapter".data t || startsWordWS "section".data t ||
  startsWordWS "part".data t || startsWordWS "article".data t ||
  digitsDotWS t || romanDotWS t

namespace Run

/-- One collected text line of run.py `extract_outline` (lines 82-90):
page number, joined span text, first span's font name, size and flags, the
line's top y coordinate and the page height. -/
structure Span where
  page : ℕ
  text : Str
  font : Str
  size : ℚ
  flags : ℕ
  y : ℚ
  page_height : ℚ
deriving DecidableEq

/-- Final outline entry `{"level", "text", "page"}` (run.py lines 170-174). -/
structure Entry where
  level : Str
  text : Str
  page : ℕ
deriving DecidableEq

/-- Output metadata (run.py lines 203-206). -/
structure Meta where
  total_pages : ℕ
  languages_detected : List Str
deriving DecidableEq

/-- The JSON document result of run.py `extract_outline`. -/
structure RResult where
  title : Str
  outline : List Entry
  metadata : Meta
deriving DecidableEq

/-- run.py lines 70-90: the collection loop strips each line's joined text
and skips lines whose text is empty.  The model receives the raw line texts
and applies the same normalization. -/
def collect (raws : List Span) : List Span :=
  (raws.map (fun s => { s with text := pyStrip s.text })).filter
    (fun s => !s.text.isEmpty)

/-- run.py line 113: `(flags & 2**1) > 0 | font.str.contains("Bold", case=False)`. -/
def weightOf (s : Span) : Bool :=
  s.flags.testBit 1 || containsStr "bold".data (pyLower s.font)

/-- run.py line 114: normalized vertical position `y / page_height`. -/
def topOf (s : Span) : ℚ := s.y / s.page_height

/-- run.py line 101: `[round(s, 1) for s in df["size"] if s > 0]`, with
Python's round-half-to-even on one decimal modelled exactly over ℚ. -/
def roundHalfEven (q : ℚ) : ℤ :=
  let f : ℤ := q.num.fdiv (q.den : ℤ)
  let r : ℚ := q - (f : ℚ)
  if r < 1/2 then f
  else if 1/2 < r then f + 1
  else if f % 2 = 0 then f else f + 1

/-- `round(s, 1)`. -/
def round1 (q : ℚ) : ℚ := (roundHalfEven (10 * q) : ℚ) / 10

/-- The list of one-decimal-rounded positive sizes (run.py line 101). -/
def roundedSizes (spans : List Span) : List ℚ :=
  (spans.filter (fun s => 0 < s.size)).map (fun s => round1 s.size)

/-- run.py lines 105-106: `collections.Counter(sizes).most_common(1)[0][0]`.
`Counter` iterates its keys in first-insertion order and `most_common`
resolves count ties by that order, so the result is the first element of the
list whose count equals the maximal count.  (The `except` fallback to the
median on line 108 is unreachable: the `try` body is total on a non-empty
list.) -/
def bestStep (l : List ℚ) (b y : ℚ) : ℚ :=
  if l.count y > l.count b then y else b

def mostCommon : List ℚ → ℚ
  | [] => 12
  | x :: xs => xs.foldl (bestStep (x :: xs)) x

/-- run.py lines 101-110: body text size baseline. -/
def body_size (spans : List Span) : ℚ :=
  let sizes := roundedSizes spans
  if sizes.isEmpty then 12 else mostCommon sizes

/-- run.py lines 8-58, `is_likely_heading(text, size, body_size, weight,
position_top, page_num)`: rejection filters, then the scored promotion with
threshold 2.  `page_num` is accepted and unused, as in the source. -/
def is_likely_heading (text : Str) (size body_size : ℚ) (weight : Bool)
    (position_top : ℚ) (page_num : ℕ) : Bool :=
  let t := pyStrip text
  if t.length < 3 then false
  else if endsContinuation t then false
  else if startsLowerCont t then false
  else if bulletStart t then false
  else
    let s1 : ℕ := if size ≥ 13/10 * body_size then 2
      else if size ≥ 23/20 * body_size then 1 else 0
    let s2 : ℕ := if weight then 1 else 0
    let s3 : ℕ := if headingPattern t then 2 else 0
    let s4 : ℕ := if pyIsUpper t ∧ 3 ≤ t.length ∧ t.length ≤ 50 then 1 else 0
    let s5 : ℕ := if position_top < 1/5 then 1 else 0
    let s6 : ℕ := if titleCasePat t then 1 else 0
    decide (2 ≤ s1 + s2 + s3 + s4 + s5 + s6)

/-- The accumulated integer score of run.py lines 29-55, written as the sum
of the six independent signal weights (the spec's Stage B table). -/
def headingScore (t : Str) (size body_size : ℚ) (weight : Bool)
    (position_top : ℚ) : ℕ :=
  (if size ≥ 13/10 * body_size then 2
    else if size ≥ 23/20 * body_size then 1 else 0) +
  (if weight then 1 else 0) +
  (if headingPattern t then 2 else 0) +
  (if pyIsUpper t ∧ 3 ≤ t.length ∧ t.length ≤ 50 then 1 else 0) +
  (if position_top < 1/5 then 1 else 0) +
  (if titleCasePat t then 1 else 0)

/-- run.py lines 131-133: `re.match(r'^(Chapter|CHAPTER|Section|SECTION|Part|PART)', text)`
(case-sensitive, no boundary after the word). -/
def startsChapterLit (t : Str) : Bool :=
  ["Chapter".data, "CHAPTER".data, "Section".data, "SECTION".data,
   "Part".data, "PART".data].any (fun w => startsWithStr w t)

/-- run.py line 135: `re.match(r'^\d+\.\s+[A-Z]', text)`. -/
def numDotCap (t : Str) : Bool :=
  let d := leadDigits t
  !d.isEmpty &&
    (match t.drop d.length with
     | '.' :: c :: r =>
       isWS c &&
         (match (c :: r).dropWhile isWS with
          | u :: _ => u.isUpper
          | [] => false)
     | _ => false)

/-- run.py lines 121-136: level assignment for an accepted heading — the
size/weight table, then the pattern-based overrides. -/
def headingLevel (t : Str) (size body : ℚ) (weight : Bool) : Str :=
  let base :=
    if size ≥ 3/2 * body ∨ (weight = true ∧ size ≥ 13/10 * body) then "H1".data
    else if size ≥ 5/4 * body ∨ weight = true then "H2".data
    else "H3".data
  if pyIsUpper t ∧ t.length ≤ 30 then "H1".data
  else if startsChapterLit t then "H1".data
  else if numDotCap t then "H2".data
  else base

/-- Annotated accepted heading (run.py lines 138-144).  `keyY` models the
sort key lookup of line 147 — the y of the first collected span with the
same text and page — and `ownY` records the producing span's own y; both are
needed because the embedding carries no ambient dataframe.  The final
projection to `Entry` drops them, as the source does. -/
structure PH where
  level : Str
  text : Str
  page : ℕ
  size : ℚ
  weight : Bool
  keyY : ℚ
  ownY : ℚ
deriving DecidableEq

/-- run.py line 147's inner lookup
`df[(df["text"] == x["text"]) & (df["page"] == x["page"])]["y"].iloc[0]`. -/
def lookupY (spans : List Span) (t : Str) (p : ℕ) : ℚ :=
  match spans.find? (fun s => decide (s.text = t) && decide (s.page = p)) with
  | some s => s.y
  | none => 0

/-- run.py lines 117-144: the accepted headings, in dataframe (reading)
order, annotated with level and sort key. -/
def potential_headings (spans : List Span) (body : ℚ) : List PH :=
  spans.filterMap (fun s =>
    if is_likely_heading s.text s.size body (weightOf s) (topOf s) s.page then
      some { level := headingLevel (pyStrip s.text) s.size body (weightOf s),
             text := pyStrip s.text,
             page := s.page,
             size := s.size,
             weight := weightOf s,
             keyY := lookupY spans (pyStrip s.text) s.page,
             ownY := s.y }
    else none)

/-- The sort relation of run.py line 147: by page, then by the looked-up y
of the first same-text span on that page. -/
def phLe (a b : PH) : Prop :=
  a.page < b.page ∨ (a.page = b.page ∧ a.keyY ≤ b.keyY)

instance (a b : PH) : Decidable (phLe a b) :=
  inferInstanceAs (Decidable (a.page < b.page ∨ (a.page = b.page ∧ a.keyY ≤ b.keyY)))

instance : IsTotal PH phLe where
  total a b := by
    rcases Nat.lt_trichotomy a.page b.page with h | h | h
    · exact Or.inl (Or.inl h)
    · rcases le_total a.keyY b.keyY with h2 | h2
      · exact Or.inl (Or.inr ⟨h, h2⟩)
      · exact Or.inr (Or.inr ⟨h.symm, h2⟩)
    · exact Or.inr (Or.inl h)

instance : IsTrans PH phLe where
  trans a b c hab hbc := by
    rcases hab with h1 | ⟨e1, y1⟩
    · rcases hbc with h2 | ⟨e2, _⟩
      · exact Or.inl (h1.trans h2)
      · exact Or.inl (e2 ▸ h1)
    · rcases hbc with h2 | ⟨e2, y2⟩
      · exact Or.inl (e1 ▸ h2)
      · exact Or.inr ⟨e1.trans e2, y1.trans y2⟩

theorem phLe_refl (a : PH) : phLe a a := Or.inr ⟨rfl, le_refl _⟩

/-- run.py line 147: `potential_headings.sort(key=...)` — Python's stable
sort by `(page, lookup-y)`; `List.insertionSort` is stable for the same
total preorder. -/
def sortedHeadings (spans : List Span) : List PH :=
  List.insertionSort phLe (potential_headings spans (body_size spans))

/-- run.py line 157: normalized dedup key
`re.sub(r'\s+', ' ', text.lower().strip())`. -/
def rkey (t : Str) : Str := collapseWS (pyStrip (pyLower t))

/-- run.py lines 162-163: single word shorter than 15 characters that is
neither all-caps nor `^[A-Z][a-z]+$`. -/
def capWordPat (t : Str) : Bool :=
  match t with
  | c :: d :: r => c.isUpper && d.isLower && r.all (·.isLower)
  | _ => false

def fragSingleWord (t : Str) : Bool :=
  wordCount t == 1 && decide (t.length < 15) && !pyIsUpper t && !capWordPat t

/-- run.py line 167: lowercased text ends with a dangling word. -/
def endsDangling (t : Str) : Bool :=
  [" and".data, " or".data, " the".data, " of".data, " in".data,
   " to".data, " for".data].any (fun w => endsWithStr w (pyLower t))

/-- run.py lines 150-175: the dedup-and-filter loop.  A heading whose key
was already seen is skipped; fragment-filtered headings are skipped without
marking their key as seen (as in the source). -/
def dedupFilter : List PH → List Str → List PH
  | [], _ => []
  | h :: rest, seen =>
    if rkey h.text ∈ seen then dedupFilter rest seen
    else if fragSingleWord h.text then dedupFilter rest seen
    else if endsDangling h.text then dedupFilter rest seen
    else h :: dedupFilter rest (rkey h.text :: seen)

def cleanedHeadings (spans : List Span) : List PH :=
  dedupFilter (sortedHeadings spans) []

def toEntry (h : PH) : Entry := ⟨h.level, h.text, h.page⟩

/-- run.py line 194: `df.loc[df["size"].idxmax(), "text"]` — pandas `idxmax`
returns the first row attaining the maximal size. -/
def firstMaxSpan : List Span → Option Span
  | [] => none
  | s :: rest => some (rest.foldl (fun b t => if t.size > b.size then t else b) s)

/-- run.py lines 177-198: the title chain.  The sentinel is the literal
`"Untitled Document"`; each later step fires only while the current title
still equals it.  The metadata title is tested for truthiness before
stripping. -/
def resolveTitle (md : Option Str) (cleaned : List PH) (spans : List Span) : Str :=
  let ud := "Untitled Document".data
  let t1 := match md with
    | some m => if m.isEmpty then ud else pyStrip m
    | none => ud
  let t2 := if t1 = ud then
      (match cleaned with
       | [] => t1
       | c :: _ => c.text)
    else t1
  if t2 = ud then
    (match firstMaxSpan spans with
     | some s => if 5 < (pyStrip s.text).length then pyStrip s.text else t2
     | none => t2)
  else t2

/-- run.py lines 200-206: `languages_detected`. -/
def languages (spans : List Span) : List Str :=
  if spans.any (fun s => s.text.any (·.isAlpha)) then ["latin".data] else []

/-- run.py lines 60-207, `extract_outline`: collection, early return on an
empty span list (lines 95-96), body size, classification, sort, dedup,
title resolution and assembly.  `md` is the document metadata title
(`doc.metadata.get("title")`, `none` when absent, the raw string
otherwise); `total_pages` is `len(doc)`. -/
def extract_outline (md : Option Str) (raws : List Span) (total_pages : ℕ) :
    RResult :=
  let spans := collect raws
  if spans.isEmpty then
    ⟨"Untitled Document".data, [], ⟨total_pages, []⟩⟩
  else
    let cleaned := cleanedHeadings spans
    ⟨resolveTitle md cleaned spans, cleaned.map toEntry,
      ⟨total_pages, languages spans⟩⟩

end Run

namespace Main

/-- One text span of main.py `extract_from_text_analysis` (lines 184-191):
span text, font size, span flags, and the containing line's top y. -/
structure MSpan where
  text : Str
  size : ℚ
  flags : ℕ
  y : ℚ
deriving DecidableEq

/-- A page is the ordered sequence of its spans (blocks→lines→spans,
flattened in reading order as the source iterates them). -/
abbrev MPage := List MSpan

/-- Outline entry of main.py (lines 209-214). -/
structure MEntry where
  level : Str
  text : Str
  page : ℕ
deriving DecidableEq

/-- Page heading before the per-page sort (lines 198-203): still carries
`y_pos`, which is removed before the entry reaches the outline. -/
structure MEntryY where
  level : Str
  text : Str
  page : ℕ
  y : ℚ
deriving DecidableEq

/-- Result of main.py `extract_outline` (lines 161-164). -/
structure MResult where
  title : Str
  outline : List MEntry
deriving DecidableEq

/-- main.py lines 59 and 190: `bool(span.get("flags", 0) & 2**4)`. -/
def mBold (flags : ℕ) : Bool := flags.testBit 4

/-- main.py lines 42-71, `extract_title_from_first_page`: candidates are the
first page's spans whose stripped text is longer than 10 characters, with
size ≥ 14, bold flag, and line top < 150; the winner is the first candidate
under the stable sort by `(-font_size, y)`. -/
def extract_title_from_first_page (pages : List MPage) : Str :=
  match pages with
  | [] => "Untitled Document".data
  | p0 :: _ =>
    let cands := p0.filterMap (fun sp =>
      let t := pyStrip sp.text
      if t ≠ [] ∧ 10 < t.length ∧ 14 ≤ sp.size ∧ mBold sp.flags = true ∧ sp.y < 150
      then some (t, sp.size, sp.y) else none)
    match cands with
    | [] => "Untitled Document".data
    | c :: cs =>
      (cs.foldl
        (fun b x =>
          if x.2.1 > b.2.1 ∨ (x.2.1 = b.2.1 ∧ x.2.2 < b.2.2) then x else b)
        c).1

/-- main.py lines 24-33: `meaningful_headings` lookup table, in insertion
order. -/
def meaningful_headings : List (Str × Str) :=
  [("mission statement".data, "H2".data),
   ("goals".data, "H2".data),
   ("pathway options".data, "H1".data),
   ("regular pathway".data, "H2".data),
   ("distinction pathway".data, "H2".data),
   ("elective course offerings".data, "H2".data),
   ("what colleges say".data, "H2".data),
   ("conference and awards".data, "H2".data)]

/-- main.py lines 36-40: `exclude_words` (including the `captsone` typo of
the source). -/
def exclude_words : List Str :=
  ["science".data, "math".data, "technology".data, "art".data,
   "applied".data, "here".data, "and".data, "or".data, "with".data,
   "the".data, "a".data, "an".data, "in".data, "on".data, "at".data,
   "approval".data, "advisor".data, "seminar".data, "research".data,
   "captsone".data]

/-- Python `str.rstrip(':')`. -/
def rstripColon (s : Str) : Str := (s.reverse.dropWhile (· = ':')).reverse

/-- main.py lines 73-86, `is_meaningful_heading`: normalize with
`lower().strip().rstrip(':')`, try a direct table hit, then the first table
key occurring as a substring. -/
def is_meaningful_heading (text : Str) : Option Str :=
  let tl := rstripColon (pyStrip (pyLower text))
  match meaningful_headings.find? (fun p => decide (p.1 = tl)) with
  | some p => some p.2
  | none => (meaningful_headings.find? (fun p => containsStr p.1 tl)).map (fun p => p.2)

/-- main.py lines 88-108, `should_exclude_text`. -/
def should_exclude_text (text : Str) : Bool :=
  let tl := pyStrip (pyLower text)
  if text.length < 4 then true
  else if tl ∈ exclude_words then true
  else if endsWithStr "/".data text || startsWithStr ".".data text
      || startsWithStr "*".data text then true
  else if wordCount text == 1 && !endsWithStr ":".data text then true
  else false

/-- Matcher for `^(\d+\.)\s+(.+)$` (main.py line 13): digits, dot, at least
one whitespace character, at least one further character.  (Span texts are
single-line, so `.` behaves as "any character" here.) -/
def matchNumDotSp (t : Str) : Bool :=
  let d := leadDigits t
  !d.isEmpty &&
    (match t.drop d.length with
     | '.' :: c :: _ :: _ => isWS c
     | _ => false)

/-- Matcher for `^(\d+\.\d+)\s+(.+)$` (main.py line 14). -/
def matchNumDotNumSp (t : Str) : Bool :=
  let d1 := leadDigits t
  !d1.isEmpty &&
    (match t.drop d1.length with
     | '.' :: r1 =>
       let d2 := leadDigits r1
       !d2.isEmpty &&
         (match r1.drop d2.length with
          | c :: _ :: _ => isWS c
          | _ => false)
     | _ => false)

/-- Matcher for `^(\d+\.\d+\.\d+)\s+(.+)$` (main.py line 15). -/
def matchNumDotNumDotNumSp (t : Str) : Bool :=
  let d1 := leadDigits t
  !d1.isEmpty &&
    (match t.drop d1.length with
     | '.' :: r1 =>
       let d2 := leadDigits r1
       !d2.isEmpty &&
         (match r1.drop d2.length with
          | '.' :: r2 =>
            let d3 := leadDigits r2
            !d3.isEmpty &&
              (match r2.drop d3.length with
               | c :: _ :: _ => isWS c
               | _ => false)
          | _ => false)
     | _ => false)

/-- main.py lines 127-136: the `heading_patterns` loop.  Only the three
numeric patterns can return: their `group(1)` prefixes satisfy the
`^\d+\.$` / `^\d+\.\d+` checks (with `^\d+\.\d+` tested before
`^\d+\.\d+\.\d+`, so a three-level number also yields `"H2"`).  The
Roman-numeral, letter and Chapter/Section/Part patterns of lines 16-20
capture prefixes that satisfy none of the three checks, so a match on them
falls through the `if/elif` chain without returning, exactly as in the
source. -/
def patternLevel (t : Str) : Option Str :=
  if matchNumDotSp t then some "H1".data
  else if matchNumDotNumSp t then some "H2".data
  else if matchNumDotNumDotNumSp t then some "H2".data
  else none

/-- main.py lines 110-148, `analyze_text_structure`. -/
def analyze_text_structure (text : Str) (font_size : ℚ) (is_bold : Bool)
    (y_pos : ℚ) (doc_title : Str) : Option Str :=
  let t := pyStrip text
  if should_exclude_text t then none
  else if t = doc_title then none
  else
    match is_meaningful_heading t with
    | some lvl => some lvl
    | none =>
      match patternLevel t with
      | some lvl => some lvl
      | none =>
        if 18 ≤ font_size ∧ is_bold = true then some "H1".data
        else if 16 ≤ font_size ∧ is_bold = true then some "H2".data
        else if 14 ≤ font_size ∧ is_bold = true ∧ 10 < t.length then some "H2".data
        else if 12 ≤ font_size ∧ is_bold = true ∧ 15 < t.length then some "H3".data
        else none

/-- main.py lines 184-203: the headings found on one page (0-based index
`i`, reported page `i + 1`), in span order, still carrying `y_pos`. -/
def page_headings (title : Str) (i : ℕ) (p : MPage) : List MEntryY :=
  p.filterMap (fun sp =>
    let t := pyStrip sp.text
    match analyze_text_structure t sp.size (mBold sp.flags) sp.y title with
    | some lvl => if t ≠ [] then some ⟨lvl, t, i + 1, sp.y⟩ else none
    | none => none)

/-- The per-page sort key of main.py line 206: `x["y_pos"]`. -/
def yLe (a b : MEntryY) : Prop := a.y ≤ b.y

instance (a b : MEntryY) : Decidable (yLe a b) :=
  inferInstanceAs (Decidable (a.y ≤ b.y))

instance : IsTotal MEntryY yLe where
  total a b := le_total a.y b.y

instance : IsTrans MEntryY yLe where
  trans _ _ _ hab hbc := le_trans hab hbc

def toMEntry (e : MEntryY) : MEntry := ⟨e.level, e.text, e.page⟩

/-- main.py lines 177-214: per page, collect headings, sort them by y
(Python's stable sort; `List.insertionSort` is stable for this total
preorder), strip the y, and concatenate across pages in page order. -/
def collectPages (title : Str) : List MPage → ℕ → List MEntry
  | [], _ => []
  | p :: rest, i =>
    ((List.insertionSort yLe (page_headings title i p)).map toMEntry)
      ++ collectPages title rest (i + 1)

/-- main.py lines 216-223: order-preserving dedup on the key
`(item["text"].lower(), item["page"])`. -/
def mDedup : List MEntry → List (Str × ℕ) → List MEntry
  | [], _ => []
  | e :: rest, seen =>
    if (pyLower e.text, e.page) ∈ seen then mDedup rest seen
    else e :: mDedup rest ((pyLower e.text, e.page) :: seen)

/-- main.py lines 173-225, `extract_from_text_analysis`. -/
def extract_from_text_analysis (pages : List MPage) (doc_title : Str) :
    List MEntry :=
  mDedup (collectPages doc_title pages 0) []

/-- main.py lines 150-171, `extract_outline` (the non-exception path: the
`except` branch only reports I/O failures of the PDF layer, which the model
does not represent). -/
def extract_outline (pages : List MPage) : MResult :=
  let title := extract_title_from_first_page pages
  ⟨title, extract_from_text_analysis pages title⟩

/-- Reading order on the y-carrying entries: lexicographic
`(page, y_pos)` — the order main.py lines 177-208 establish (pages are
visited in ascending order, each page's headings are sorted by `y_pos`). -/
def mLex (a b : MEntryY) : Prop :=
  a.page < b.page ∨ (a.page = b.page ∧ a.y ≤ b.y)

/-- main.py lines 177-208 with `y_pos` retained: the same per-page
collection and sort as `collectPages`, before line 209 removes `y_pos`.
`collectPages` is its entrywise projection (theorem
`collectPages_eq_map`). -/
def collectPagesY (title : Str) : List MPage → ℕ → List MEntryY
  | [], _ => []
  | p :: rest, i =>
    List.insertionSort yLe (page_headings title i p)
      ++ collectPagesY title rest (i + 1)

/-- The dedup loop of main.py lines 216-223 performed on the y-carrying
entries: the key `(item["text"].lower(), item["page"])` does not involve
`y_pos`, so this mirrors `mDedup` exactly (theorem `mDedup_map`). -/
def mDedupY : List MEntryY → List (Str × ℕ) → List MEntryY
  | [], _ => []
  | e :: rest, seen =>
    if (pyLower e.text, e.page) ∈ seen then mDedupY rest seen
    else e :: mDedupY rest ((pyLower e.text, e.page) :: seen)

end Main

/-! ### Concrete documents used by the claim counterexamples and witnesses -/

/-- The numbered-sections scenario of the spec, fed to run.py: bold
"1. Introduction" (size 18) and bold "1.1 Background" (size 14) at the top
of page 1 of an 800pt page. -/
def c3spans : List Run.Span :=
  [⟨1, "1. Introduction".data, "".data, 18, 2, 50, 800⟩,
   ⟨1, "1.1 Background".data, "".data, 14, 2, 100, 800⟩]

/-- The same scenario as seen by main.py (bold flag is bit 4 there). -/
def c3doc : List Main.MPage :=
  [[⟨"1. Introduction".data, 18, 16, 50⟩, ⟨"1.1 Background".data, 14, 16, 100⟩]]

/-- A run.py document whose rounded positive sizes are `[14, 10]`:
both counts are 1, so `Counter.most_common` keeps the first-encountered
size 14, not the smallest one. -/
def c2spans : List Run.Span :=
  [⟨1, "alpha".data, "".data, 14, 0, 100, 800⟩,
   ⟨1, "beta".data, "".data, 10, 0, 200, 800⟩]

/-- A run.py document with rounded sizes `[14, 10, 10]` (unique maximum). -/
def w2spans : List Run.Span :=
  [⟨1, "alpha".data, "".data, 14, 0, 100, 800⟩,
   ⟨1, "beta".data, "".data, 10, 0, 200, 800⟩,
   ⟨1, "gamma".data, "".data, 10, 0, 300, 800⟩]

/-- A run.py document without metadata title whose first detected outline
entry is the H2 "Project Overview" while the first H1 entry is "RESULTS". -/
def c4spans : List Run.Span :=
  [⟨1, "lorem ipsum text".data, "".data, 10, 0, 500, 800⟩,
   ⟨1, "dolor sit amet".data, "".data, 10, 0, 520, 800⟩,
   ⟨1, "consectetur adip".data, "".data, 10, 0, 540, 800⟩,
   ⟨1, "Project Overview".data, "".data, 13, 0, 300, 800⟩,
   ⟨1, "RESULTS".data, "".data, 16, 0, 400, 800⟩]

/-- A main.py page with two bold size-18 spans whose texts differ only in
internal whitespace: "Real  Analysis" and "Real Analysis". -/
def c5doc : List Main.MPage :=
  [[⟨"Real  Analysis".data, 18, 16, 200⟩, ⟨"Real Analysis".data, 18, 16, 300⟩]]

/-- A run.py document in which the text "Strange marker" occurs first in a
non-heading span near the page top (y 100) and again in a heading span near
the bottom (y 790), with the heading "Middle Section" at y 400 in between:
the sort key for the bottom heading is the first occurrence's y. -/
def c6spans : List Run.Span :=
  [⟨1, "body copy alpha".data, "".data, 10, 0, 200, 800⟩,
   ⟨1, "body copy beta".data, "".data, 10, 0, 210, 800⟩,
   ⟨1, "body copy gamma".data, "".data, 10, 0, 220, 800⟩,
   ⟨1, "Strange marker".data, "".data, 10, 0, 100, 800⟩,
   ⟨1, "Middle Section".data, "".data, 16, 0, 400, 800⟩,
   ⟨1, "Strange marker".data, "".data, 16, 0, 790, 800⟩]

/-- A one-span run.py document; paired with the whitespace-only metadata
title `"   "` it exercises the title-resolution corner. -/
def c7spans : List Run.Span :=
  [⟨1, "plain body text".data, "".data, 12, 0, 300, 800⟩]

/-- A run.py input whose only span strips to the empty text, so the
collected span list is empty. -/
def c8raws : List Run.Span :=
  [⟨1, "   ".data, "".data, 12, 0, 100, 800⟩]

/-- A run.py document in which the heading text "Summary Report" is
detected on page 1 (y 300) and again on page 2 (y 50). -/
def c9spans : List Run.Span :=
  [⟨1, "body filler one".data, "".data, 10, 0, 600, 800⟩,
   ⟨1, "body filler two".data, "".data, 10, 0, 620, 800⟩,
   ⟨1, "body filler three".data, "".data, 10, 0, 640, 800⟩,
   ⟨1, "Summary Report".data, "".data, 16, 0, 300, 800⟩,
   ⟨2, "Summary Report".data, "".data, 16, 0, 50, 800⟩]

/-- The page-2 occurrence of "Summary Report" as it appears in
`Run.sortedHeadings (Run.collect c9spans)`. -/
def c9ph : Run.PH :=
  ⟨"H1".data, "Summary Report".data, 2, 16, false, 50, 50⟩

/-- A one-page main.py document whose single span is a numbered heading
that is not a title candidate (its line top is 200 ≥ 150). -/
def c10doc : List Main.MPage :=
  [[⟨"1. Methods Overview".data, 18, 16, 200⟩]]

/-! ### Helper lemmas -/

theorem dropWhile_dropWhile (p : Char → Bool) (l : Str) :
    (l.dropWhile p).dropWhile p = l.dropWhile p := by
  induction l with
  | nil => rfl
  | cons c t ih =>
    by_cases h : p c = true
    · rw [List.dropWhile_cons, if_pos h]; exact ih
    · rw [List.dropWhile_cons, if_neg h, List.dropWhile_cons, if_neg h]

theorem dropWhile_head_false (p : Char → Bool) :
    ∀ (l : Str) (c : Char) (r : Str), l.dropWhile p = c :: r → p c = false := by
  intro l
  induction l with
  | nil => intro c r h; cases h
  | cons a t ih =>
    intro c r h
    by_cases ha : p a = true
    · rw [List.dropWhile_cons, if_pos ha] at h
      exact ih c r h
    · rw [List.dropWhile_cons, if_neg ha] at h
      cases h
      simpa using ha

theorem strip_decomp (l : Str) :
    l.dropWhile isWS =
      pyStrip l ++ ((l.dropWhile isWS).reverse.takeWhile isWS).reverse := by
  have h2 := congrArg List.reverse
    (List.takeWhile_append_dropWhile isWS ((l.dropWhile isWS).reverse))
  rw [List.reverse_append, List.reverse_reverse] at h2
  exact h2.symm

theorem pyStrip_head_false (l : Str) (c : Char) (r : Str)
    (h : pyStrip l = c :: r) : isWS c = false := by
  have hd := strip_decomp l
  rw [h] at hd
  exact dropWhile_head_false isWS l c _ hd

theorem pyStrip_dropWhile (l : Str) :
    (pyStrip l).dropWhile isWS = pyStrip l := by
  cases hs : pyStrip l with
  | nil => rfl
  | cons c r =>
    rw [List.dropWhile_cons, if_neg]
    simp [pyStrip_head_false l c r hs]

theorem pyStrip_reverse_dropWhile (l : Str) :
    (pyStrip l).reverse.dropWhile isWS = (pyStrip l).reverse := by
  rw [pyStrip, List.reverse_reverse, dropWhile_dropWhile]

theorem pyStrip_idem (l : Str) : pyStrip (pyStrip l) = pyStrip l := by
  show (((pyStrip l).dropWhile isWS).reverse.dropWhile isWS).reverse = pyStrip l
  rw [pyStrip_dropWhile, pyStrip_reverse_dropWhile, List.reverse_reverse]

theorem bestStep_foldl_spec (l : List ℚ) :
    ∀ (ys : List ℚ) (b : ℚ),
      (∀ y ∈ ys, l.count y ≤ l.count (ys.foldl (Run.bestStep l) b)) ∧
      l.count b ≤ l.count (ys.foldl (Run.bestStep l) b) ∧
      (ys.foldl (Run.bestStep l) b = b ∨
        ∃ u v, ys = u ++ (ys.foldl (Run.bestStep l) b) :: v ∧
          l.count b < l.count (ys.foldl (Run.bestStep l) b) ∧
          ∀ q ∈ u, l.count q < l.count (ys.foldl (Run.bestStep l) b)) := by
  intro ys
  induction ys with
  | nil =>
    intro b
    exact ⟨by simp, le_refl _, Or.inl rfl⟩
  | cons y ys ih =>
    intro b
    simp only [List.foldl_cons]
    obtain ⟨A, B, C⟩ := ih (Run.bestStep l b y)
    by_cases hc : l.count b < l.count y
    · have hb : Run.bestStep l b y = y := by simp [Run.bestStep, hc]
      rw [hb] at A B C ⊢
      refine ⟨?_, le_of_lt (lt_of_lt_of_le hc B), ?_⟩
      · intro z hz
        rcases List.mem_cons.mp hz with rfl | hz'
        · exact B
        · exact A z hz'
      · rcases C with hC | ⟨u, v, hys, hlt, hu⟩
        · refine Or.inr ⟨[], ys, ?_, ?_, by simp⟩
          · rw [hC]; rfl
          · rw [hC]; exact hc
        · refine Or.inr ⟨y :: u, v, ?_, lt_trans hc hlt, ?_⟩
          · conv_lhs => rw [hys]
            rfl
          · intro q hq
            rcases List.mem_cons.mp hq with rfl | hq'
            · exact hlt
            · exact hu q hq'
    · have hb : Run.bestStep l b y = b := by simp [Run.bestStep, hc]
      rw [hb] at A B C ⊢
      refine ⟨?_, B, ?_⟩
      · intro z hz
        rcases List.mem_cons.mp hz with rfl | hz'
        · exact le_trans (le_of_not_lt hc) B
        · exact A z hz'
      · rcases C with hC | ⟨u, v, hys, hlt, hu⟩
        · exact Or.inl hC
        · refine Or.inr ⟨y :: u, v, ?_, hlt, ?_⟩
          · conv_lhs => rw [hys]
            rfl
          · intro q hq
            rcases List.mem_cons.mp hq with rfl | hq'
            · exact lt_of_le_of_lt (le_of_not_lt hc) hlt
            · exact hu q hq'

theorem mostCommon_spec (x : ℚ) (xs : List ℚ) :
    (∀ q ∈ x :: xs,
      (x :: xs).count q ≤ (x :: xs).count (Run.mostCommon (x :: xs))) ∧
    ∃ u v, x :: xs = u ++ Run.mostCommon (x :: xs) :: v ∧
      ∀ q ∈ u,
        (x :: xs).count q < (x :: xs).count (Run.mostCommon (x :: xs)) := by
  obtain ⟨A, B, C⟩ := bestStep_foldl_spec (x :: xs) xs x
  have hmc : Run.mostCommon (x :: xs) = xs.foldl (Run.bestStep (x :: xs)) x := rfl
  rw [hmc]
  constructor
  · intro q hq
    rcases List.mem_cons.mp hq with rfl | hq'
    · exact B
    · exact A q hq'
  · rcases C with hC | ⟨u, v, hys, hlt, hu⟩
    · exact ⟨[], xs, by rw [hC]; rfl, by simp⟩
    · refine ⟨x :: u, v, ?_, ?_⟩
      · conv_lhs => rw [hys]
        rfl
      · intro q hq
        rcases List.mem_cons.mp hq with rfl | hq'
        · exact hlt
        · exact hu q hq'

theorem dedupFilter_sublist :
    ∀ (l : List Run.PH) (seen : List Str), List.Sublist (Run.dedupFilter l seen) l := by
  intro l
  induction l with
  | nil => intro seen; exact List.Sublist.refl _
  | cons h rest ih =>
    intro seen
    simp only [Run.dedupFilter]
    by_cases h1 : Run.rkey h.text ∈ seen
    · rw [if_pos h1]
      exact (ih seen).trans (List.sublist_cons_self h rest)
    · rw [if_neg h1]
      by_cases h2 : Run.fragSingleWord h.text = true
      · rw [if_pos h2]
        exact (ih seen).trans (List.sublist_cons_self h rest)
      · rw [if_neg h2]
        by_cases h3 : Run.endsDangling h.text = true
        · rw [if_pos h3]
          exact (ih seen).trans (List.sublist_cons_self h rest)
        · rw [if_neg h3]
          exact List.Sublist.cons₂ h (ih _)

theorem dedupFilter_fresh :
    ∀ (l : List Run.PH) (seen : List Str) (e : Run.PH),
      e ∈ Run.dedupFilter l seen → Run.rkey e.text ∉ seen := by
  intro l
  induction l with
  | nil => intro seen e he; cases he
  | cons h rest ih =>
    intro seen e he
    simp only [Run.dedupFilter] at he
    by_cases h1 : Run.rkey h.text ∈ seen
    · rw [if_pos h1] at he; exact ih seen e he
    · rw [if_neg h1] at he
      by_cases h2 : Run.fragSingleWord h.text = true
      · rw [if_pos h2] at he; exact ih seen e he
      · rw [if_neg h2] at he
        by_cases h3 : Run.endsDangling h.text = true
        · rw [if_pos h3] at he; exact ih seen e he
        · rw [if_neg h3] at he
          rcases List.mem_cons.mp he with rfl | he'
          · exact h1
          · intro hmem
            exact ih _ e he' (List.mem_cons_of_mem _ hmem)

theorem dedupFilter_pairwise :
    ∀ (l : List Run.PH) (seen : List Str),
      List.Pairwise (fun a b => Run.rkey a.text ≠ Run.rkey b.text)
        (Run.dedupFilter l seen) := by
  intro l
  induction l with
  | nil => intro seen; exact List.Pairwise.nil
  | cons h rest ih =>
    intro seen
    simp only [Run.dedupFilter]
    by_cases h1 : Run.rkey h.text ∈ seen
    · rw [if_pos h1]; exact ih seen
    · rw [if_neg h1]
      by_cases h2 : Run.fragSingleWord h.text = true
      · rw [if_pos h2]; exact ih seen
      · rw [if_neg h2]
        by_cases h3 : Run.endsDangling h.text = true
        · rw [if_pos h3]; exact ih seen
        · rw [if_neg h3]
          refine List.Pairwise.cons ?_ (ih _)
          intro e he heq
          exact dedupFilter_fresh rest _ e he (heq ▸ List.mem_cons_self _ _)

theorem dedupFilter_exists :
    ∀ (l : List Run.PH) (seen : List Str),
      List.Pairwise Run.phLe l →
      ∀ h ∈ l, Run.fragSingleWord h.text = false →
        Run.endsDangling h.text = false →
        Run.rkey h.text ∉ seen →
        ∃ e ∈ Run.dedupFilter l seen,
          Run.rkey e.text = Run.rkey h.text ∧ Run.phLe e h := by
  intro l
  induction l with
  | nil => intro seen _ h hmem; cases hmem
  | cons hd rest ih =>
    intro seen hp h hmem hf hdg hseen
    have hp' : List.Pairwise Run.phLe rest := hp.of_cons
    rcases List.mem_cons.mp hmem with rfl | hmem'
    · -- h is the head; its key is unseen and it passes the filters, so it is kept
      simp only [Run.dedupFilter]
      rw [if_neg hseen, if_neg (by rw [hf]; exact Bool.false_ne_true),
        if_neg (by rw [hdg]; exact Bool.false_ne_true)]
      exact ⟨h, List.mem_cons_self _ _, rfl, Run.phLe_refl h⟩
    · simp only [Run.dedupFilter]
      by_cases h1 : Run.rkey hd.text ∈ seen
      · rw [if_pos h1]; exact ih seen hp' h hmem' hf hdg hseen
      · rw [if_neg h1]
        by_cases h2 : Run.fragSingleWord hd.text = true
        · rw [if_pos h2]; exact ih seen hp' h hmem' hf hdg hseen
        · rw [if_neg h2]
          by_cases h3 : Run.endsDangling hd.text = true
          · rw [if_pos h3]; exact ih seen hp' h hmem' hf hdg hseen
          · rw [if_neg h3]
            by_cases hkey : Run.rkey h.text = Run.rkey hd.text
            · exact ⟨hd, List.mem_cons_self _ _, hkey.symm,
                (List.pairwise_cons.mp hp).1 h hmem'⟩
            · have hseen' : Run.rkey h.text ∉ Run.rkey hd.text :: seen := by
                intro hc
                rcases List.mem_cons.mp hc with hc1 | hc2
                · exact hkey hc1
                · exact hseen hc2
              obtain ⟨e, he, hk, hle⟩ := ih _ hp' h hmem' hf hdg hseen'
              exact ⟨e, List.mem_cons_of_mem _ he, hk, hle⟩

theorem mDedup_sublist :
    ∀ (l : List Main.MEntry) (seen : List (Str × ℕ)),
      List.Sublist (Main.mDedup l seen) l := by
  intro l
  induction l with
  | nil => intro seen; exact List.Sublist.refl _
  | cons e rest ih =>
    intro seen
    simp only [Main.mDedup]
    by_cases h1 : (pyLower e.text, e.page) ∈ seen
    · rw [if_pos h1]
      exact (ih seen).trans (List.sublist_cons_self e rest)
    · rw [if_neg h1]
      exact List.Sublist.cons₂ e (ih _)

theorem mDedup_fresh :
    ∀ (l : List Main.MEntry) (seen : List (Str × ℕ)) (e : Main.MEntry),
      e ∈ Main.mDedup l seen → (pyLower e.text, e.page) ∉ seen := by
  intro l
  induction l with
  | nil => intro seen e he; cases he
  | cons a rest ih =>
    intro seen e he
    simp only [Main.mDedup] at he
    by_cases h1 : (pyLower a.text, a.page) ∈ seen
    · rw [if_pos h1] at he; exact ih seen e he
    · rw [if_neg h1] at he
      rcases List.mem_cons.mp he with rfl | he'
      · exact h1
      · intro hmem
        exact ih _ e he' (List.mem_cons_of_mem _ hmem)

theorem mDedup_pairwise :
    ∀ (l : List Main.MEntry) (seen : List (Str × ℕ)),
      List.Pairwise
        (fun a b => ¬(pyLower a.text = pyLower b.text ∧ a.page = b.page))
        (Main.mDedup l seen) := by
  intro l
  induction l with
  | nil => intro seen; exact List.Pairwise.nil
  | cons a rest ih =>
    intro seen
    simp only [Main.mDedup]
    by_cases h1 : (pyLower a.text, a.page) ∈ seen
    · rw [if_pos h1]; exact ih seen
    · rw [if_neg h1]
      refine List.Pairwise.cons ?_ (ih _)
      intro e he ⟨ht, hpg⟩
      refine mDedup_fresh rest _ e he ?_
      rw [← ht, ← hpg]
      exact List.mem_cons_self _ _

theorem analyze_some_ne (t : Str) (fs : ℚ) (b : Bool) (y : ℚ) (ttl lvl : Str)
    (h : Main.analyze_text_structure t fs b y ttl = some lvl) :
    pyStrip t ≠ ttl := by
  unfold Main.analyze_text_structure at h
  by_cases h1 : Main.should_exclude_text (pyStrip t) = true
  · rw [if_pos h1] at h; cases h
  · rw [if_neg h1] at h
    by_cases h2 : pyStrip t = ttl
    · rw [if_pos h2] at h; cases h
    · exact h2

theorem analyze_title_none (t : Str) (fs : ℚ) (b : Bool) (y : ℚ) (ttl : Str)
    (h : pyStrip t = ttl) :
    Main.analyze_text_structure t fs b y ttl = none := by
  unfold Main.analyze_text_structure
  by_cases h1 : Main.should_exclude_text (pyStrip t) = true
  · rw [if_pos h1]
  · rw [if_neg h1, if_pos h]

theorem collectPages_text_ne (title : Str) :
    ∀ (pages : List Main.MPage) (i : ℕ) (e : Main.MEntry),
      e ∈ Main.collectPages title pages i → e.text ≠ title := by
  intro pages
  induction pages with
  | nil => intro i e he; cases he
  | cons p rest ih =>
    intro i e he
    simp only [Main.collectPages] at he
    rcases List.mem_append.mp he with hL | hR
    · obtain ⟨ey, hey, hte⟩ := List.mem_map.mp hL
      have hmem : ey ∈ Main.page_headings title i p :=
        (List.mem_insertionSort Main.yLe).mp hey
      obtain ⟨sp, _, hsome⟩ := List.mem_filterMap.mp hmem
      simp only at hsome
      split at hsome
      · rename_i lvl han
        split at hsome
        · cases hsome
          have hne : pyStrip (pyStrip sp.text) ≠ title :=
            analyze_some_ne _ _ _ _ _ _ han
          rw [pyStrip_idem] at hne
          rw [← hte]
          exact hne
        · exact Option.noConfusion hsome
      · exact Option.noConfusion hsome
    · exact ih (i + 1) e hR

theorem collectPages_empty (title : Str) :
    ∀ (pages : List Main.MPage) (i : ℕ),
      (∀ p ∈ pages, p = []) → Main.collectPages title pages i = [] := by
  intro pages
  induction pages with
  | nil => intro i _; rfl
  | cons p rest ih =>
    intro i hall
    have hp : p = [] := hall p (List.mem_cons_self _ _)
    simp only [Main.collectPages, hp]
    rw [ih (i + 1) (fun q hq => hall q (List.mem_cons_of_mem _ hq))]
    rfl

theorem collect_isEmpty_false (raws : List Run.Span)
    (h : Run.collect raws ≠ []) : (Run.collect raws).isEmpty = false := by
  cases hc : Run.collect raws with
  | nil => exact absurd hc h
  | cons a l => rfl

theorem run_extract_nonempty (md : Option Str) (raws : List Run.Span)
    (tp : ℕ) (h : Run.collect raws ≠ []) :
    Run.extract_outline md raws tp =
      ⟨Run.resolveTitle md (Run.cleanedHeadings (Run.collect raws))
         (Run.collect raws),
       (Run.cleanedHeadings (Run.collect raws)).map Run.toEntry,
       ⟨tp, Run.languages (Run.collect raws)⟩⟩ := by
  simp only [Run.extract_outline, collect_isEmpty_false raws h,
    Bool.false_eq_true, if_false]

theorem phLe_page_le (a b : Run.PH) (h : Run.phLe a b) : a.page ≤ b.page := by
  rcases h with h1 | ⟨h2, _⟩
  · exact le_of_lt h1
  · exact le_of_eq h2

theorem cleaned_pairwise_phLe (spans : List Run.Span) :
    List.Pairwise Run.phLe (Run.cleanedHeadings spans) := by
  have hs : List.Pairwise Run.phLe (Run.sortedHeadings spans) :=
    List.sorted_insertionSort Run.phLe _
  exact List.Pairwise.sublist (dedupFilter_sublist _ _) hs

theorem resolveTitle_metadata (m : Str) (hm : m ≠ [])
    (hmu : pyStrip m ≠ "Untitled Document".data)
    (cleaned : List Run.PH) (spans : List Run.Span) :
    Run.resolveTitle (some m) cleaned spans = pyStrip m := by
  have hme : m.isEmpty = false := by
    cases m with
    | nil => exact absurd rfl hm
    | cons a l => rfl
  simp [Run.resolveTitle, hme, hmu]

theorem resolveTitle_first_entry (md : Option Str)
    (hmd : md = none ∨ md = some []) (c : Run.PH) (cs : List Run.PH)
    (hc : c.text ≠ "Untitled Document".data) (spans : List Run.Span) :
    Run.resolveTitle md (c :: cs) spans = c.text := by
  rcases hmd with rfl | rfl
  · simp [Run.resolveTitle, hc]
  · simp [Run.resolveTitle, hc]

theorem resolveTitle_largest (md : Option Str)
    (hmd : md = none ∨ md = some []) (spans : List Run.Span) (s : Run.Span)
    (hs : Run.firstMaxSpan spans = some s) :
    Run.resolveTitle md [] spans =
      (if 5 < (pyStrip s.text).length then pyStrip s.text
       else "Untitled Document".data) := by
  rcases hmd with rfl | rfl
  · simp [Run.resolveTitle, hs]
  · simp [Run.resolveTitle, hs]

theorem mDedup_first :
    ∀ (l : List Main.MEntry) (seen : List (Str × ℕ)) (h : Main.MEntry),
      h ∈ l → (pyLower h.text, h.page) ∉ seen →
      ∃ e ∈ Main.mDedup l seen,
        (pyLower e.text, e.page) = (pyLower h.text, h.page) ∧
        ∃ u v, l = u ++ e :: v ∧ h ∈ e :: v := by
  intro l
  induction l with
  | nil => intro seen h hmem; cases hmem
  | cons a rest ih =>
    intro seen h hmem hseen
    simp only [Main.mDedup]
    rcases List.mem_cons.mp hmem with rfl | hmem'
    · rw [if_neg hseen]
      exact ⟨h, List.mem_cons_self _ _, rfl, [], rest, rfl,
        List.mem_cons_self _ _⟩
    · by_cases h1 : (pyLower a.text, a.page) ∈ seen
      · rw [if_pos h1]
        obtain ⟨e, he, hk, u, v, hdec, hin⟩ := ih seen h hmem' hseen
        exact ⟨e, he, hk, a :: u, v, by rw [hdec]; rfl, hin⟩
      · rw [if_neg h1]
        by_cases hkey : (pyLower h.text, h.page) = (pyLower a.text, a.page)
        · refine ⟨a, List.mem_cons_self _ _, hkey.symm, [], rest, rfl, ?_⟩
          exact List.mem_cons_of_mem _ hmem'
        · have hseen' :
              (pyLower h.text, h.page) ∉ (pyLower a.text, a.page) :: seen := by
            intro hc
            rcases List.mem_cons.mp hc with hc1 | hc2
            · exact hkey hc1
            · exact hseen hc2
          obtain ⟨e, he, hk, u, v, hdec, hin⟩ := ih _ h hmem' hseen'
          exact ⟨e, List.mem_cons_of_mem _ he, hk, a :: u, v,
            by rw [hdec]; rfl, hin⟩

theorem dedupFilter_first :
    ∀ (l : List Run.PH) (seen : List Str) (h : Run.PH),
      h ∈ l → Run.fragSingleWord h.text = false →
      Run.endsDangling h.text = false → Run.rkey h.text ∉ seen →
      ∃ e ∈ Run.dedupFilter l seen,
        Run.rkey e.text = Run.rkey h.text ∧
        ∃ u v, l = u ++ e :: v ∧ h ∈ e :: v := by
  intro l
  induction l with
  | nil => intro seen h hmem _ _ _; cases hmem
  | cons a rest ih =>
    intro seen h hmem hf hd hseen
    simp only [Run.dedupFilter]
    rcases List.mem_cons.mp hmem with rfl | hmem'
    · rw [if_neg hseen, if_neg (by rw [hf]; exact Bool.false_ne_true),
        if_neg (by rw [hd]; exact Bool.false_ne_true)]
      exact ⟨h, List.mem_cons_self _ _, rfl, [], rest, rfl,
        List.mem_cons_self _ _⟩
    · by_cases h1 : Run.rkey a.text ∈ seen
      · rw [if_pos h1]
        obtain ⟨e, he, hk, u, v, hdec, hin⟩ := ih seen h hmem' hf hd hseen
        exact ⟨e, he, hk, a :: u, v, by rw [hdec]; rfl, hin⟩
      · rw [if_neg h1]
        by_cases h2 : Run.fragSingleWord a.text = true
        · rw [if_pos h2]
          obtain ⟨e, he, hk, u, v, hdec, hin⟩ := ih seen h hmem' hf hd hseen
          exact ⟨e, he, hk, a :: u, v, by rw [hdec]; rfl, hin⟩
        · rw [if_neg h2]
          by_cases h3 : Run.endsDangling a.text = true
          · rw [if_pos h3]
            obtain ⟨e, he, hk, u, v, hdec, hin⟩ := ih seen h hmem' hf hd hseen
            exact ⟨e, he, hk, a :: u, v, by rw [hdec]; rfl, hin⟩
          · rw [if_neg h3]
            by_cases hkey : Run.rkey h.text = Run.rkey a.text
            · exact ⟨a, List.mem_cons_self _ _, hkey.symm, [], rest, rfl,
                List.mem_cons_of_mem _ hmem'⟩
            · have hseen' : Run.rkey h.text ∉ Run.rkey a.text :: seen := by
                intro hc
                rcases List.mem_cons.mp hc with hc1 | hc2
                · exact hkey hc1
                · exact hseen hc2
              obtain ⟨e, he, hk, u, v, hdec, hin⟩ := ih _ h hmem' hf hd hseen'
              exact ⟨e, List.mem_cons_of_mem _ he, hk, a :: u, v,
                by rw [hdec]; rfl, hin⟩

theorem collectPages_eq_map (title : Str) :
    ∀ (pages : List Main.MPage) (i : ℕ),
      Main.collectPages title pages i =
        (Main.collectPagesY title pages i).map Main.toMEntry := by
  intro pages
  induction pages with
  | nil => intro i; rfl
  | cons p rest ih =>
    intro i
    simp only [Main.collectPages, Main.collectPagesY, List.map_append,
      ih (i + 1)]

theorem mDedup_map :
    ∀ (L : List Main.MEntryY) (seen : List (Str × ℕ)),
      Main.mDedup (L.map Main.toMEntry) seen =
        (Main.mDedupY L seen).map Main.toMEntry := by
  intro L
  induction L with
  | nil => intro seen; rfl
  | cons e rest ih =>
    intro seen
    simp only [List.map_cons, Main.mDedup, Main.mDedupY, Main.toMEntry]
    by_cases h1 : (pyLower e.text, e.page) ∈ seen
    · rw [if_pos h1, if_pos h1]
      exact ih seen
    · rw [if_neg h1, if_neg h1, ih _]
      rfl

theorem page_headings_page (title : Str) (i : ℕ) (p : Main.MPage) :
    ∀ e ∈ Main.page_headings title i p, e.page = i + 1 := by
  intro e he
  obtain ⟨sp, _, hsome⟩ := List.mem_filterMap.mp he
  simp only at hsome
  split at hsome
  · split at hsome
    · cases hsome; rfl
    · exact Option.noConfusion hsome
  · exact Option.noConfusion hsome

theorem collectPagesY_page_ge (title : Str) :
    ∀ (pages : List Main.MPage) (i : ℕ) (e : Main.MEntryY),
      e ∈ Main.collectPagesY title pages i → i + 1 ≤ e.page := by
  intro pages
  induction pages with
  | nil => intro i e he; cases he
  | cons p rest ih =>
    intro i e he
    simp only [Main.collectPagesY] at he
    rcases List.mem_append.mp he with hL | hR
    · have hm : e ∈ Main.page_headings title i p :=
        (List.mem_insertionSort Main.yLe).mp hL
      rw [page_headings_page title i p e hm]
    · exact le_trans (Nat.le_succ _) (ih (i + 1) e hR)

theorem collectPagesY_pairwise (title : Str) :
    ∀ (pages : List Main.MPage) (i : ℕ),
      List.Pairwise Main.mLex (Main.collectPagesY title pages i) := by
  intro pages
  induction pages with
  | nil => intro i; exact List.Pairwise.nil
  | cons p rest ih =>
    intro i
    simp only [Main.collectPagesY]
    refine List.pairwise_append.mpr ⟨?_, ih (i + 1), ?_⟩
    · have hsor : List.Pairwise Main.yLe
          (List.insertionSort Main.yLe (Main.page_headings title i p)) :=
        List.sorted_insertionSort Main.yLe _
      refine List.Pairwise.imp_of_mem ?_ hsor
      intro a b ha hb hy
      have hpa : a.page = i + 1 :=
        page_headings_page title i p a ((List.mem_insertionSort Main.yLe).mp ha)
      have hpb : b.page = i + 1 :=
        page_headings_page title i p b ((List.mem_insertionSort Main.yLe).mp hb)
      exact Or.inr ⟨hpa.trans hpb.symm, hy⟩
    · intro a ha b hb
      have hpa : a.page = i + 1 :=
        page_headings_page title i p a ((List.mem_insertionSort Main.yLe).mp ha)
      have hpb : i + 2 ≤ b.page := collectPagesY_page_ge title rest (i + 1) b hb
      exact Or.inl (by omega)

theorem mDedupY_sublist :
    ∀ (l : List Main.MEntryY) (seen : List (Str × ℕ)),
      List.Sublist (Main.mDedupY l seen) l := by
  intro l
  induction l with
  | nil => intro seen; exact List.Sublist.refl _
  | cons e rest ih =>
    intro seen
    simp only [Main.mDedupY]
    by_cases h1 : (pyLower e.text, e.page) ∈ seen
    · rw [if_pos h1]
      exact (ih seen).trans (List.sublist_cons_self e rest)
    · rw [if_neg h1]
      exact List.Sublist.cons₂ e (ih _)

theorem mLex_page_le (a b : Main.MEntryY) (h : Main.mLex a b) :
    a.page ≤ b.page := by
  rcases h with h1 | ⟨h2, _⟩
  · exact le_of_lt h1
  · exact le_of_eq h2

/-! ### Claims -/

/-- C1: for every span that passes the Stage A rejection filters of
run.py's `is_likely_heading` (trimmed length at least 3, no
continuation-token ending, no lowercase start unless numbered, no bullet
glyph start), the span is classified as a heading if and only if the
accumulated integer score — the sum of the six signal weights of
`headingScore` (+2 large size / +1 moderate size, +1 bold, +2 structural
prefix, +1 all-caps of length 3..50, +1 top of page, +1 Title-Case) — is at
least 2. -/
theorem claim_c1 (text : Str) (size body_size : ℚ) (weight : Bool)
    (position_top : ℚ) (page_num : ℕ)
    (h1 : 3 ≤ (pyStrip text).length)
    (h2 : endsContinuation (pyStrip text) = false)
    (h3 : startsLowerCont (pyStrip text) = false)
    (h4 : bulletStart (pyStrip text) = false) :
    Run.is_likely_heading text size body_size weight position_top page_num
        = true ↔
      2 ≤ Run.headingScore (pyStrip text) size body_size weight position_top := by
  simp only [Run.is_likely_heading, Run.headingScore, h2, h3, h4,
    Bool.false_eq_true, if_false]
  rw [if_neg (by omega : ¬ (pyStrip text).length < 3)]
  exact decide_eq_true_iff

/-- Witness for C1: the span "Project Overview" (size 13, body 10, not
bold, vertical position 3/8) passes all rejection filters and scores 3. -/
theorem claim_c1_witness :
    (3 ≤ (pyStrip "Project Overview".data).length ∧
     endsContinuation (pyStrip "Project Overview".data) = false ∧
     startsLowerCont (pyStrip "Project Overview".data) = false ∧
     bulletStart (pyStrip "Project Overview".data) = false) ∧
    (Run.is_likely_heading "Project Overview".data 13 10 false (3/8) 1
        = true ↔
      2 ≤ Run.headingScore (pyStrip "Project Overview".data) 13 10 false
            (3/8)) :=
  ⟨⟨by decide, by decide, by decide, by decide⟩,
   claim_c1 "Project Overview".data 13 10 false (3/8) 1
     (by decide) (by decide) (by decide) (by decide)⟩

/-- C2 counterexample: in the document `c2spans` the rounded sizes are
`[14, 10]`, both with count 1; the code's body size is 14 (the
first-encountered size), not the smallest tied size 10 as the claim
states. -/
theorem claim_c2_cex :
    Run.body_size (Run.collect c2spans) = 14 ∧
    (Run.roundedSizes (Run.collect c2spans)).count 14 =
      (Run.roundedSizes (Run.collect c2spans)).count 10 ∧
    (10 : ℚ) ∈ Run.roundedSizes (Run.collect c2spans) ∧
    (10 : ℚ) < 14 ∧
    Run.body_size (Run.collect c2spans) ≠ 10 := by
  with_unfolding_all exact of_decide_eq_true rfl

/-- C2 amended: the body-size baseline is the rounded size with the highest
occurrence count among spans with positive size, with ties broken by the
size value encountered first in span order (every size listed before the
chosen one has strictly smaller count); if no span has positive size the
baseline is 12.0. -/
theorem claim_c2_amended (spans : List Run.Span) :
    (Run.roundedSizes spans = [] → Run.body_size spans = 12) ∧
    (∀ x xs, Run.roundedSizes spans = x :: xs →
      (∀ q ∈ Run.roundedSizes spans,
        (Run.roundedSizes spans).count q ≤
          (Run.roundedSizes spans).count (Run.body_size spans)) ∧
      ∃ u v, Run.roundedSizes spans = u ++ Run.body_size spans :: v ∧
        ∀ q ∈ u,
          (Run.roundedSizes spans).count q <
            (Run.roundedSizes spans).count (Run.body_size spans)) := by
  constructor
  · intro h
    unfold Run.body_size
    rw [h]
    rfl
  · intro x xs h
    have hb : Run.body_size spans = Run.mostCommon (x :: xs) := by
      unfold Run.body_size
      rw [h]
      rfl
    rw [h, hb]
    exact mostCommon_spec x xs

/-- Witness for C2 amended: in `w2spans` the rounded sizes are
`[14, 10, 10]` and the chosen baseline has maximal count. -/
theorem claim_c2_amended_witness :
    (∀ q ∈ Run.roundedSizes (Run.collect w2spans),
      (Run.roundedSizes (Run.collect w2spans)).count q ≤
        (Run.roundedSizes (Run.collect w2spans)).count
          (Run.body_size (Run.collect w2spans))) ∧
    ∃ u v, Run.roundedSizes (Run.collect w2spans) =
        u ++ Run.body_size (Run.collect w2spans) :: v ∧
      ∀ q ∈ u,
        (Run.roundedSizes (Run.collect w2spans)).count q <
          (Run.roundedSizes (Run.collect w2spans)).count
            (Run.body_size (Run.collect w2spans)) :=
  (claim_c2_amended (Run.collect w2spans)).2 14 [10, 10]
    (by with_unfolding_all rfl)

/-- C3 counterexample: on the numbered-sections scenario the run.py outline
contains no entry `{H1, "1. Introduction", 1}` — the first heading is
assigned level H2, because the body-size baseline of the two-span document
is 18 and the size ratio of "1. Introduction" is 1. -/
theorem claim_c3_cex :
    ¬ ((⟨"H1".data, "1. Introduction".data, 1⟩ : Run.Entry) ∈
        (Run.extract_outline none c3spans 1).outline) := by
  with_unfolding_all exact of_decide_eq_true rfl

/-- C3 amended: on the scenario page, run.py produces
`[{H2, "1. Introduction", 1}, {H2, "1.1 Background", 1}]` in that order,
and main.py resolves "1. Introduction" as the document title and produces
the outline `[{H2, "1.1 Background", 1}]`. -/
theorem claim_c3_amended :
    (Run.extract_outline none c3spans 1).outline =
      [⟨"H2".data, "1. Introduction".data, 1⟩,
       ⟨"H2".data, "1.1 Background".data, 1⟩] ∧
    Main.extract_outline c3doc =
      ⟨"1. Introduction".data, [⟨"H2".data, "1.1 Background".data, 1⟩]⟩ :=
  ⟨by with_unfolding_all rfl, by with_unfolding_all rfl⟩

/-- C4 counterexample: in `c4spans` (no metadata title) the first outline
entry is the H2 "Project Overview" and the first H1 entry is "RESULTS";
run.py resolves the title to "Project Overview", not to the first H1's
text. -/
theorem claim_c4_cex :
    (Run.extract_outline none c4spans 1).title = "Project Overview".data ∧
    (Run.extract_outline none c4spans 1).outline =
      [⟨"H2".data, "Project Overview".data, 1⟩,
       ⟨"H1".data, "RESULTS".data, 1⟩] ∧
    "Project Overview".data ≠ "RESULTS".data :=
  ⟨by with_unfolding_all rfl, by with_unfolding_all rfl, by decide⟩

/-- C4 amended: for a document with at least one collected span, the title
chain of run.py is: (1) the trimmed metadata title, provided the raw
metadata title is non-empty before trimming and its trimmed value is not
the literal "Untitled Document"; (2) otherwise the text of the FIRST
outline entry regardless of level (provided it is not that literal);
(3) otherwise the trimmed text of the first span with the globally largest
size if its length exceeds 5, else the literal "Untitled Document". -/
theorem claim_c4_amended (md : Option Str) (raws : List Run.Span) (tp : ℕ)
    (hne : Run.collect raws ≠ []) :
    (∀ m, md = some m → m ≠ [] →
      pyStrip m ≠ "Untitled Document".data →
      (Run.extract_outline md raws tp).title = pyStrip m) ∧
    ((md = none ∨ md = some []) →
      ∀ c cs, Run.cleanedHeadings (Run.collect raws) = c :: cs →
        c.text ≠ "Untitled Document".data →
        (Run.extract_outline md raws tp).title = c.text) ∧
    ((md = none ∨ md = some []) →
      Run.cleanedHeadings (Run.collect raws) = [] →
      ∀ s, Run.firstMaxSpan (Run.collect raws) = some s →
        (Run.extract_outline md raws tp).title =
          (if 5 < (pyStrip s.text).length then pyStrip s.text
           else "Untitled Document".data)) := by
  have he := run_extract_nonempty md raws tp hne
  refine ⟨?_, ?_, ?_⟩
  · intro m hm hm1 hm2
    rw [hm] at he ⊢
    rw [he]
    exact resolveTitle_metadata m hm1 hm2 _ _
  · intro hmd c cs hc hcne
    rw [he]
    show Run.resolveTitle md (Run.cleanedHeadings (Run.collect raws)) _ = _
    rw [hc]
    exact resolveTitle_first_entry md hmd c cs hcne _
  · intro hmd hnil s hs
    rw [he]
    show Run.resolveTitle md (Run.cleanedHeadings (Run.collect raws)) _ = _
    rw [hnil]
    exact resolveTitle_largest md hmd _ s hs

/-- Witness for C4 amended: with metadata title "  Report 2024  " on
`c4spans`, the resolved title is the trimmed metadata title even though an
H1 heading with different text exists. -/
theorem claim_c4_amended_witness :
    (Run.extract_outline (some "  Report 2024  ".data) c4spans 1).title =
      pyStrip "  Report 2024  ".data :=
  (claim_c4_amended (some "  Report 2024  ".data) c4spans 1
      (by with_unfolding_all exact of_decide_eq_true rfl)).1
    "  Report 2024  ".data rfl (by decide) (by decide)

/-- C5 counterexample: main.py keeps both "Real  Analysis" and
"Real Analysis" on the same page even though their lowercased,
whitespace-collapsed texts coincide — its dedup key does not collapse
whitespace. -/
theorem claim_c5_cex :
    (Main.extract_outline c5doc).outline =
      [⟨"H1".data, "Real  Analysis".data, 1⟩,
       ⟨"H1".data, "Real Analysis".data, 1⟩] ∧
    collapseWS (pyStrip (pyLower "Real  Analysis".data)) =
      collapseWS (pyStrip (pyLower "Real Analysis".data)) ∧
    "Real  Analysis".data ≠ "Real Analysis".data :=
  ⟨by with_unfolding_all rfl, by decide, by decide⟩

/-- C5 amended: in main.py no two outline entries share the same
(exactly lowercased text, page) pair — whitespace is not collapsed in the
key; in run.py no two outline entries share the same lowercased,
whitespace-collapsed text at all (the key ignores the page).  In both
pipelines the first occurrence wins: every pre-dedup candidate is
represented in the retained list by an entry with the same key occurring
at or before it in reading order (third and fourth conjuncts). -/
theorem claim_c5_amended (pages : List Main.MPage) (md : Option Str)
    (raws : List Run.Span) (tp : ℕ) :
    List.Pairwise
      (fun a b => ¬(pyLower a.text = pyLower b.text ∧ a.page = b.page))
      (Main.extract_outline pages).outline ∧
    List.Pairwise (fun a b => Run.rkey a.text ≠ Run.rkey b.text)
      (Run.extract_outline md raws tp).outline ∧
    (∀ h ∈ Main.collectPages (Main.extract_title_from_first_page pages)
        pages 0,
      ∃ e ∈ (Main.extract_outline pages).outline,
        (pyLower e.text, e.page) = (pyLower h.text, h.page) ∧
        ∃ u v,
          Main.collectPages (Main.extract_title_from_first_page pages)
              pages 0 = u ++ e :: v ∧
          h ∈ e :: v) ∧
    (∀ h ∈ Run.sortedHeadings (Run.collect raws),
      Run.fragSingleWord h.text = false →
      Run.endsDangling h.text = false →
      ∃ e ∈ Run.cleanedHeadings (Run.collect raws),
        Run.rkey e.text = Run.rkey h.text ∧
        ∃ u v, Run.sortedHeadings (Run.collect raws) = u ++ e :: v ∧
          h ∈ e :: v) := by
  refine ⟨mDedup_pairwise _ _, ?_, ?_, ?_⟩
  · by_cases hne : Run.collect raws = []
    · have h0 : Run.extract_outline md raws tp =
          ⟨"Untitled Document".data, [], ⟨tp, []⟩⟩ := by
        unfold Run.extract_outline
        rw [hne]
        rfl
      rw [h0]
      exact List.Pairwise.nil
    · rw [run_extract_nonempty md raws tp hne]
      refine List.pairwise_map.mpr ?_
      exact dedupFilter_pairwise _ _
  · intro h hmem
    exact mDedup_first _ [] h hmem (by simp)
  · intro h hmem hf hd
    exact dedupFilter_first _ [] h hmem hf hd (by simp)

/-- Witness for C5 amended: in `c5doc` the candidate
`{H1, "Real Analysis", 1}` (the second pre-dedup entry) is represented by
an outline entry with the same key at or before it. -/
theorem claim_c5_amended_witness :
    ∃ e ∈ (Main.extract_outline c5doc).outline,
      (pyLower e.text, e.page) =
        (pyLower (Main.MEntry.mk "H1".data "Real Analysis".data 1).text,
         (Main.MEntry.mk "H1".data "Real Analysis".data 1).page) ∧
      ∃ u v,
        Main.collectPages (Main.extract_title_from_first_page c5doc)
            c5doc 0 = u ++ e :: v ∧
        Main.MEntry.mk "H1".data "Real Analysis".data 1 ∈ e :: v :=
  (claim_c5_amended c5doc none [] 0).2.2.1
    (Main.MEntry.mk "H1".data "Real Analysis".data 1)
    (by with_unfolding_all exact of_decide_eq_true rfl)

/-- C6 counterexample: in `c6spans` the final outline lists
"Strange marker" (whose producing span sits at y 790) before
"Middle Section" (span at y 400) on the same page, because the sort key of
"Strange marker" is the y (100) of the earlier non-heading span with the
same text. -/
theorem claim_c6_cex :
    Run.cleanedHeadings (Run.collect c6spans) =
      [⟨"H1".data, "Strange marker".data, 1, 16, false, 100, 790⟩,
       ⟨"H1".data, "Middle Section".data, 1, 16, false, 400, 400⟩] ∧
    (Run.extract_outline none c6spans 1).outline =
      [⟨"H1".data, "Strange marker".data, 1⟩,
       ⟨"H1".data, "Middle Section".data, 1⟩] ∧
    (400 : ℚ) < 790 :=
  ⟨by with_unfolding_all rfl, by with_unfolding_all rfl, by norm_num⟩

/-- C6 amended: in main.py the ordering invariant holds as stated — the
final outline is the entrywise projection of a y-carrying list that is
pairwise non-decreasing in `(page, y_pos)` (the producing spans' own
positions), so pages ascend and, within a page, the source spans' vertical
positions ascend.  In run.py, consecutive entries are non-decreasing in
`(page, keyY)` where `keyY` is the vertical position of the first span on
the page with the entry's text (the code's sort key), and pages ascend
across the final outline; the entry's own span position coincides with
`keyY` only when no earlier same-text span exists on the page (see the
counterexample, which refutes the own-position invariant for run.py
only). -/
theorem claim_c6_amended (md : Option Str) (raws : List Run.Span) (tp : ℕ)
    (pages : List Main.MPage) :
    List.Pairwise Run.phLe (Run.cleanedHeadings (Run.collect raws)) ∧
    List.Pairwise (fun a b => a.page ≤ b.page)
      (Run.extract_outline md raws tp).outline ∧
    List.Pairwise Main.mLex
      (Main.collectPagesY (Main.extract_title_from_first_page pages)
        pages 0) ∧
    (Main.extract_outline pages).outline =
      (Main.mDedupY
          (Main.collectPagesY (Main.extract_title_from_first_page pages)
            pages 0) []).map Main.toMEntry ∧
    List.Pairwise Main.mLex
      (Main.mDedupY
        (Main.collectPagesY (Main.extract_title_from_first_page pages)
          pages 0) []) ∧
    List.Pairwise (fun a b => a.page ≤ b.page)
      (Main.extract_outline pages).outline := by
  have hout : (Main.extract_outline pages).outline =
      (Main.mDedupY
          (Main.collectPagesY (Main.extract_title_from_first_page pages)
            pages 0) []).map Main.toMEntry := by
    have h1 : (Main.extract_outline pages).outline =
        Main.mDedup
          (Main.collectPages (Main.extract_title_from_first_page pages)
            pages 0) [] := rfl
    rw [h1, collectPages_eq_map, mDedup_map]
  have hdy : List.Pairwise Main.mLex
      (Main.mDedupY
        (Main.collectPagesY (Main.extract_title_from_first_page pages)
          pages 0) []) :=
    List.Pairwise.sublist (mDedupY_sublist _ _)
      (collectPagesY_pairwise _ pages 0)
  refine ⟨cleaned_pairwise_phLe _, ?_, collectPagesY_pairwise _ pages 0,
    hout, hdy, ?_⟩
  · by_cases hne : Run.collect raws = []
    · have h0 : Run.extract_outline md raws tp =
          ⟨"Untitled Document".data, [], ⟨tp, []⟩⟩ := by
        unfold Run.extract_outline
        rw [hne]
        rfl
      rw [h0]
      exact List.Pairwise.nil
    · rw [run_extract_nonempty md raws tp hne]
      refine List.pairwise_map.mpr ?_
      exact (cleaned_pairwise_phLe _).imp (fun hab => phLe_page_le _ _ hab)
  · rw [hout]
    refine List.pairwise_map.mpr ?_
    exact hdy.imp (fun hab => mLex_page_le _ _ hab)

/-- C7: evaluation at the failing input — a whitespace-only (hence truthy)
metadata title makes run.py return the empty string as the document title,
contradicting the title non-emptiness invariant. -/
theorem claim_c7_eval :
    (Run.extract_outline (some "   ".data) c7spans 1).title = [] ∧
    "   ".data ≠ ([] : Str) :=
  ⟨by with_unfolding_all rfl, by decide⟩

/-- C8: a document with zero collected spans yields
`{"Untitled Document", [], metadata}` in run.py (even when a metadata title
is present, since the early return precedes title resolution), and a
document whose pages are all empty yields `{"Untitled Document", []}` in
main.py — never an error. -/
theorem claim_c8 (md : Option Str) (raws : List Run.Span) (tp : ℕ)
    (pages : List Main.MPage) :
    (Run.collect raws = [] →
      Run.extract_outline md raws tp =
        ⟨"Untitled Document".data, [], ⟨tp, []⟩⟩) ∧
    ((∀ p ∈ pages, p = []) →
      Main.extract_outline pages = ⟨"Untitled Document".data, []⟩) := by
  constructor
  · intro h
    unfold Run.extract_outline
    rw [h]
    rfl
  · intro hall
    have htitle :
        Main.extract_title_from_first_page pages = "Untitled Document".data := by
      cases pages with
      | nil => rfl
      | cons p rest =>
        have hp : p = [] := hall p (List.mem_cons_self _ _)
        unfold Main.extract_title_from_first_page
        rw [hp]
        rfl
    have houtline :
        Main.extract_from_text_analysis pages ("Untitled Document".data) = [] := by
      unfold Main.extract_from_text_analysis
      rw [collectPages_empty _ pages 0 hall]
      rfl
    have hdef : Main.extract_outline pages =
        ⟨Main.extract_title_from_first_page pages,
         Main.extract_from_text_analysis pages
           (Main.extract_title_from_first_page pages)⟩ := rfl
    rw [hdef, htitle, houtline]

/-- Witness for C8: a run.py input whose only span strips to nothing (and a
metadata title is present), and a two-page main.py document with no spans. -/
theorem claim_c8_witness :
    Run.extract_outline (some "Ignored Title".data) c8raws 0 =
      ⟨"Untitled Document".data, [], ⟨0, []⟩⟩ ∧
    Main.extract_outline [[], []] = ⟨"Untitled Document".data, []⟩ :=
  ⟨(claim_c8 (some "Ignored Title".data) c8raws 0 [[], []]).1
     (by with_unfolding_all rfl),
   (claim_c8 (some "Ignored Title".data) c8raws 0 [[], []]).2 (by decide)⟩

/-- C9: the run.py dedup key is the normalized text alone, without the
page: the cleaned outline never contains two entries with the same
normalized text, and for every sorted heading that survives the fragment
filters there is a retained entry with the same normalized text on an
earlier-or-equal page. -/
theorem claim_c9 (raws : List Run.Span) (h : Run.PH)
    (hmem : h ∈ Run.sortedHeadings (Run.collect raws))
    (hf : Run.fragSingleWord h.text = false)
    (hd : Run.endsDangling h.text = false) :
    List.Pairwise (fun a b => Run.rkey a.text ≠ Run.rkey b.text)
      (Run.cleanedHeadings (Run.collect raws)) ∧
    ∃ e ∈ Run.cleanedHeadings (Run.collect raws),
      Run.rkey e.text = Run.rkey h.text ∧ e.page ≤ h.page := by
  refine ⟨dedupFilter_pairwise _ _, ?_⟩
  have hp : List.Pairwise Run.phLe (Run.sortedHeadings (Run.collect raws)) :=
    List.sorted_insertionSort Run.phLe _
  obtain ⟨e, he, hk, hle⟩ :=
    dedupFilter_exists (Run.sortedHeadings (Run.collect raws)) [] hp h hmem
      hf hd (by simp)
  exact ⟨e, he, hk, phLe_page_le _ _ hle⟩

/-- Witness for C9: in `c9spans` the text "Summary Report" is detected on
pages 1 and 2; the page-2 heading `c9ph` is in the sorted list, and the
retained entry with its normalized text sits on page 1 ≤ 2. -/
theorem claim_c9_witness :
    List.Pairwise (fun a b => Run.rkey a.text ≠ Run.rkey b.text)
      (Run.cleanedHeadings (Run.collect c9spans)) ∧
    ∃ e ∈ Run.cleanedHeadings (Run.collect c9spans),
      Run.rkey e.text = Run.rkey c9ph.text ∧ e.page ≤ c9ph.page :=
  claim_c9 c9spans c9ph (by with_unfolding_all exact of_decide_eq_true rfl)
    (by decide) (by decide)

/-- C10: in main.py no outline entry's text equals the resolved document
title — any span whose stripped text equals the title is classified as a
non-heading by `analyze_text_structure`. -/
theorem claim_c10 (pages : List Main.MPage) (t : Str) (fs : ℚ) (b : Bool)
    (y : ℚ) :
    (∀ e ∈ (Main.extract_outline pages).outline,
      e.text ≠ (Main.extract_outline pages).title) ∧
    (pyStrip t = Main.extract_title_from_first_page pages →
      Main.analyze_text_structure t fs b y
        (Main.extract_title_from_first_page pages) = none) := by
  constructor
  · intro e he
    have he' : e ∈ Main.collectPages
        (Main.extract_title_from_first_page pages) pages 0 :=
      (mDedup_sublist _ _).subset he
    exact collectPages_text_ne _ pages 0 e he'
  · intro h
    exact analyze_title_none t fs b y _ h

/-- Witness for C10: on `c10doc` the outline contains
"1. Methods Overview" while the title is "Untitled Document", and a span
whose stripped text equals that title is rejected. -/
theorem claim_c10_witness :
    (⟨"H1".data, "1. Methods Overview".data, 1⟩ : Main.MEntry).text ≠
      (Main.extract_outline c10doc).title ∧
    Main.analyze_text_structure "Untitled Document".data 18 true 200
      (Main.extract_title_from_first_page c10doc) = none :=
  ⟨(claim_c10 c10doc "x".data 18 true 200).1 _
     (by with_unfolding_all exact of_decide_eq_true rfl),
   (claim_c10 c10doc "Untitled Document".data 18 true 200).2
     (by with_unfolding_all rfl)⟩
